import Mathlib

/-!
# SwiftPOS real-time order synchronization: a shallow embedding

This file embeds the real-time order synchronization subsystem of the
SwiftPOS repository in Lean 4 and proves properties of it:

* the data model (`OrderStatus`, `OrderedItem`, `ActiveOrder`,
  `UserOrderReceipt`, `User`, `Restaurant`) from `src/types/OrderType.ts`
  and the `User`/`Restaurant` types;
* the reconciliation engine (`changedOrders`, `mergedOrders`) from the
  WebSocket message handler in
  `src/app/api/restaurant/[restaurantId]/orders/route.ts`;
* the connection registry (`addClient`, `removeClient`, `getClients`,
  `broadcastToRestaurant`) from `src/utils/wsStore.ts`;
* the full message handler `SOCKET`'s message callback, embedded as a
  state transformer `handleMessage` that also records the externally
  visible side effects (user-record writes, email attempts, the ledger
  persist, per-channel sends, log lines) in program order.

JavaScript `Map` insertion semantics (`set` on an existing key keeps the
key's original position and replaces its value) are embedded by
`jsMapInsert`/`jsDedupeById`; JavaScript `Set` semantics are embedded by
duplicate-free lists.  `JSON.stringify` equality of two orders of the
same TypeScript shape coincides with field-by-field structural equality,
so the deep-equality test of the source is embedded as decidable
equality on `ActiveOrder`.
-/

/-- `OrderStatus` from `src/types/OrderType.ts`. -/
inductive OrderStatus where
  | pending
  | preparing
  | ready
  | completed
  deriving DecidableEq, Repr

/-- `ModificationOption` from `src/types/RestaurantType.ts`.
`priceModifier` is a JS number; it is embedded as an integer number of
cents (only equality of prices matters in this subsystem). -/
structure ModificationOption where
  id : String
  name : String
  priceModifier : Int
  deriving DecidableEq, Repr

/-- `OrderedItem` from `src/types/OrderType.ts`. -/
structure OrderedItem where
  itemId : String
  name : String
  quantity : Nat
  basePrice : Int
  modifications : Option (List ModificationOption)
  customText : String
  totalPrice : Int
  deriving DecidableEq, Repr

/-- `ActiveOrder` from `src/types/OrderType.ts`: the unit of
synchronization, keyed by `id`. -/
structure ActiveOrder where
  id : String
  customerId : Option String
  orderPlacedAt : String
  status : OrderStatus
  items : List OrderedItem
  discountAmount : Int
  discountPrice : Int
  actualPrice : Int
  notes : Option String
  paymentIntentId : String
  deriving DecidableEq, Repr

/-- The item summary stored inside a `UserOrderReceipt`
(`src/types/OrderType.ts`). -/
structure ReceiptItem where
  name : String
  quantity : Nat
  totalPrice : Int
  deriving DecidableEq, Repr

/-- `UserOrderReceipt` from `src/types/OrderType.ts`: the copy of an
order kept in the customer's `pastOrders`. -/
structure UserOrderReceipt where
  id : String
  restaurantId : String
  restaurantName : String
  orderPlacedAt : String
  items : List ReceiptItem
  discountAmount : Int
  discountPrice : Int
  actualPrice : Int
  status : OrderStatus
  deriving DecidableEq, Repr

/-- `User` from `src/types/UserType.ts` (the fields this subsystem
touches).  `email` is a required string in the TypeScript type; the
handler's `!updatedUser?.email` check treats the empty string as
"no email address". -/
structure User where
  uid : String
  email : String
  firstName : Option String
  pastOrders : List UserOrderReceipt
  deriving DecidableEq, Repr

/-- The restaurant document (the fields this subsystem touches):
`_id`, `name`, `activeOrders` (the per-restaurant order ledger). -/
structure Restaurant where
  rid : String
  name : String
  activeOrders : List ActiveOrder
  deriving DecidableEq, Repr

/-! ## Reconciliation engine

Embeds lines 88–92 (`changedOrders`) and 191–194 (`mergedOrders`) of
`src/app/api/restaurant/[restaurantId]/orders/route.ts`. -/

/-- The source's
`updatedOrders.filter(u => { const e = currentOrders.find(o => o.id === u.id); return !e || JSON.stringify(e) !== JSON.stringify(u); })`:
an incoming order is changed when `currentOrders` has no order with its
`id`, or the first such order differs from it (deep value equality). -/
def changedOrders (currentOrders updatedOrders : List ActiveOrder) :
    List ActiveOrder :=
  updatedOrders.filter fun updatedOrder =>
    match currentOrders.find? (fun o => o.id == updatedOrder.id) with
    | none => true
    | some existingOrder => existingOrder != updatedOrder

/-- One `map.set(o.id, o)` step of a JavaScript `Map` whose values carry
their own key: setting an existing key keeps its insertion position and
replaces the value; a new key is appended. -/
def jsMapInsert (m : List ActiveOrder) (o : ActiveOrder) : List ActiveOrder :=
  if m.any (fun p => p.id == o.id) then
    m.map fun p => if p.id == o.id then o else p
  else
    m ++ [o]

/-- `[...new Map(l.map(o => [o.id, o])).values()]`: deduplicate a list of
orders by `id`, keeping the first occurrence's position and the last
occurrence's value. -/
def jsDedupeById (l : List ActiveOrder) : List ActiveOrder :=
  l.foldl jsMapInsert []

/-- The source's
`[...new Map([...currentOrders.filter(o => !updatedOrders.some(u => u.id === o.id)), ...updatedOrders].map(o => [o.id, o])).values()]`. -/
def mergedOrders (currentOrders updatedOrders : List ActiveOrder) :
    List ActiveOrder :=
  jsDedupeById
    ((currentOrders.filter fun o => !updatedOrders.any fun u => u.id == o.id)
      ++ updatedOrders)

/-- The last element of `l` whose `id` is `i` (later occurrences take
priority), mirroring which value a JS `Map` retains for a duplicated key. -/
def lastWithId : List ActiveOrder → String → Option ActiveOrder
  | [], _ => none
  | o :: l, i => (lastWithId l i).or (if o.id == i then some o else none)

/-- The list of ids is duplicate-free. -/
def idsNodup (l : List ActiveOrder) : Prop :=
  (l.map ActiveOrder.id).Nodup

instance (l : List ActiveOrder) : Decidable (idsNodup l) :=
  inferInstanceAs (Decidable ((l.map ActiveOrder.id).Nodup))

/-! ## Connection registry

Embeds `src/utils/wsStore.ts`.  The process-wide
`Map<string, Set<WebSocket>>` is embedded as an association list from
restaurant id to the list of channel identifiers (a JS `Set` iterated in
insertion order is a duplicate-free list); a channel is an opaque `Nat`. -/

/-- The registry: `restaurantClients : Map<string, Set<WebSocket>>`. -/
abbrev Registry := List (String × List Nat)

/-- `addClient(restaurantId, client)`: ensure an entry exists for
`restaurantId`, then `Set.add` the client (a no-op when already present). -/
def addClient (reg : Registry) (restaurantId : String) (client : Nat) :
    Registry :=
  if reg.any (fun p => p.1 == restaurantId) then
    reg.map fun p =>
      if p.1 == restaurantId then
        (p.1, if p.2.contains client then p.2 else p.2 ++ [client])
      else p
  else
    reg ++ [(restaurantId, [client])]

/-- `removeClient(restaurantId, client)`: `Set.delete` the client from the
entry, then delete the entry when its set became empty; a no-op when no
entry exists. -/
def removeClient (reg : Registry) (restaurantId : String) (client : Nat) :
    Registry :=
  (reg.map fun p =>
      if p.1 == restaurantId then (p.1, p.2.filter fun c => !(c == client))
      else p).filter
    fun p => !(p.1 == restaurantId) || !p.2.isEmpty

/-- `getClients(restaurantId)`: the entry's set, or the empty set. -/
def getClients (reg : Registry) (restaurantId : String) : List Nat :=
  ((reg.find? fun p => p.1 == restaurantId).map Prod.snd).getD []

/-- Registries reachable from the empty process-start registry by any
sequence of `addClient`/`removeClient` calls (`getClients` does not
mutate). -/
inductive ReachableRegistry : Registry → Prop where
  | empty : ReachableRegistry []
  | add (reg : Registry) (r : String) (c : Nat) :
      ReachableRegistry reg → ReachableRegistry (addClient reg r c)
  | remove (reg : Registry) (r : String) (c : Nat) :
      ReachableRegistry reg → ReachableRegistry (removeClient reg r c)

/-! ## The message handler

Embeds the `client.on("message", ...)` callback of `SOCKET` in
`src/app/api/restaurant/[restaurantId]/orders/route.ts`, together with the
connect phase of `SOCKET`.  The mutable world (restaurant documents, user
documents, the connection registry) is threaded explicitly, and every
externally visible side effect is recorded, in program order, in a trace. -/

/-- One externally visible side effect of the handler, in program order. -/
inductive Effect where
  /-- The initial snapshot sent to a freshly connected channel. -/
  | initialSnapshot (channel : Nat) (restaurantId : String)
      (orders : List ActiveOrder)
  /-- `userCollection.updateOne` setting `pastOrders.$.status`. -/
  | userWrite (customerId orderId : String) (status : OrderStatus)
  /-- A `sendEmail(address, ...)` attempt for one changed order. -/
  | emailAttempt (address : String) (orderId : String)
  /-- `restaurantCollection.updateOne` persisting the merged ledger. -/
  | persist (restaurantId : String) (orders : List ActiveOrder)
  /-- `client.send(broadcastMessage)` to one open channel. -/
  | send (channel : Nat) (restaurantId : String) (orders : List ActiveOrder)
  /-- A `console.error` line. -/
  | logError (msg : String)
  /-- A `console.warn` line. -/
  | logWarn (msg : String)
  deriving DecidableEq, Repr

/-- Classifier: is this effect a ledger persist? -/
def Effect.isPersist : Effect → Bool
  | .persist _ _ => true
  | _ => false

/-- Classifier: is this effect a per-channel send of the merged snapshot? -/
def Effect.isSend : Effect → Bool
  | .send _ _ _ => true
  | _ => false

/-- Classifier: is this effect part of the notification side-effect runner
(customer-record write or email attempt)? -/
def Effect.isNotif : Effect → Bool
  | .userWrite _ _ _ => true
  | .emailAttempt _ _ => true
  | _ => false

/-- The parsed client→server message `{ restaurantId, orders }`
(`RecievingMessage` in the source). -/
structure Msg where
  restaurantId : String
  orders : List ActiveOrder
  deriving DecidableEq, Repr

/-- The mutable world the handler touches. -/
structure SyncState where
  restaurants : List Restaurant
  users : List User
  registry : Registry
  deriving Repr

/-- Outcomes of the fallible external calls: whether the ledger
`updateOne` succeeds, whether `sendEmail` to a given address succeeds, and
whether a channel's `readyState` is `OPEN` at broadcast time. -/
structure Env where
  persistOk : Bool
  emailOk : String → Bool
  isOpen : Nat → Bool

/-- Update the first element of `l` satisfying `p` (MongoDB `updateOne` /
the positional `$` operator update exactly one matching document). -/
def updateFirst (l : List α) (p : α → Bool) (f : α → α) : List α :=
  match l with
  | [] => []
  | x :: xs => if p x then f x :: xs else x :: updateFirst xs p f

/-- Set the status of the first receipt in `pastOrders` whose `id` is
`orderId` (the positional `$` update `pastOrders.$.status`). -/
def setReceiptStatus (u : User) (orderId : String) (st : OrderStatus) :
    User :=
  let po := updateFirst u.pastOrders (fun r => r.id == orderId)
    (fun r => { r with status := st })
  { u with pastOrders := po }

/-- The `updateOne` filter `{ _id: customerId, "pastOrders.id": order.id }`. -/
def userMatches (customerId orderId : String) (u : User) : Bool :=
  u.uid == customerId && u.pastOrders.any fun r => r.id == orderId

/-- The mutation performed by
`userCollection.updateOne({_id, "pastOrders.id"}, {$set: {"pastOrders.$.status"}})`:
write the order's new status into the first matching receipt of the
(first) matching user document. -/
def writeStatusToUsers (users : List User) (cid : String)
    (order : ActiveOrder) : List User :=
  updateFirst users (userMatches cid order.id)
    (fun u => setReceiptStatus u order.id order.status)

/-- The body of the `for (const order of changedOrders)` loop for one
changed order: skip when there is no `customerId`; otherwise write the new
status into the customer's matching `pastOrders` entry (`updateOne`), skip
with a warning when nothing matched or the customer has no email address,
and otherwise attempt the email (a failed attempt is caught and logged,
so the loop and the rest of the handler continue either way). -/
def notifyOrderSome (users : List User) (emailOk : String → Bool)
    (order : ActiveOrder) (cid : String) : List User × List Effect :=
  if users.any (userMatches cid order.id) then
    match (writeStatusToUsers users cid order).find?
        (fun u => u.uid == cid) with
    | none => (writeStatusToUsers users cid order,
        [Effect.userWrite cid order.id order.status,
          Effect.logWarn "no email"])
    | some u =>
      if u.email == "" then
        (writeStatusToUsers users cid order,
          [Effect.userWrite cid order.id order.status,
            Effect.logWarn "no email"])
      else
        (writeStatusToUsers users cid order,
          [Effect.userWrite cid order.id order.status,
            Effect.emailAttempt u.email order.id] ++
            (if emailOk u.email then []
             else [Effect.logError "email failed"]))
  else
    (users, [Effect.logWarn "no match"])

/-- The loop body dispatch on `order.customerId`: `if (!order.customerId)
continue;` skips the order entirely. -/
def notifyOrder (users : List User) (emailOk : String → Bool)
    (order : ActiveOrder) : List User × List Effect :=
  match order.customerId with
  | none => (users, [])
  | some cid => notifyOrderSome users emailOk order cid

/-- The whole notification loop (`for (const order of changedOrders)`):
run `notifyOrder` on each changed order in turn, threading the user store
and concatenating the effects in program order. -/
def runNotifications (users : List User) (emailOk : String → Bool) :
    List ActiveOrder → List User × List Effect
  | [] => (users, [])
  | o :: rest =>
    let r := notifyOrder users emailOk o
    let k := runNotifications r.1 emailOk rest
    (k.1, r.2 ++ k.2)

/-- The `client.on("message")` callback: parse (already done), look up the
restaurant named by the message, compute the changed orders, run the
notification loop, compute the merged list, persist it, and broadcast the
merged snapshot to every open channel registered for the message's
restaurant id.  A failing persist throws into the outer `catch`, which
only logs; the broadcast is then skipped and the ledger keeps its old
value (the user-record writes that already happened stay). -/
def handleMessage (st : SyncState) (env : Env) (msg : Msg) :
    SyncState × List Effect :=
  match st.restaurants.find? (fun r => r.rid == msg.restaurantId) with
  | none => (st, [Effect.logError "restaurant not found"])
  | some restaurant =>
    let currentOrders := restaurant.activeOrders
    let changed := changedOrders currentOrders msg.orders
    let notif := runNotifications st.users env.emailOk changed
    let merged := mergedOrders currentOrders msg.orders
    if env.persistOk then
      let restaurants' := updateFirst st.restaurants
        (fun r => r.rid == msg.restaurantId)
        (fun r => { r with activeOrders := merged })
      let sends := ((getClients st.registry msg.restaurantId).filter
          env.isOpen).map
        (fun c => Effect.send c msg.restaurantId merged)
      (⟨restaurants', notif.1, st.registry⟩,
        notif.2 ++ [Effect.persist msg.restaurantId merged] ++ sends)
    else
      (⟨st.restaurants, notif.1, st.registry⟩,
        notif.2 ++ [Effect.logError "failed to process incoming message"])

/-- The connect phase of `SOCKET`: register the channel for the
restaurant in the URL, then send it the current snapshot. -/
def socketConnect (st : SyncState) (channel : Nat) (restaurantId : String) :
    SyncState × List Effect :=
  let registry' := addClient st.registry restaurantId channel
  let orders :=
    (((st.restaurants.find? fun r => r.rid == restaurantId).map
      Restaurant.activeOrders).getD [])
  ({ st with registry := registry' },
    [Effect.initialSnapshot channel restaurantId orders])

/-- `broadcastToRestaurant(restaurantId, message)` from
`src/utils/wsStore.ts`: no clients is a logged no-op; otherwise send the
once-serialized message to every client whose `readyState` is `OPEN`. -/
def broadcastToRestaurant (reg : Registry) (isOpen : Nat → Bool)
    (restaurantId : String) (orders : List ActiveOrder) : List Effect :=
  match reg.find? (fun p => p.1 == restaurantId) with
  | none => []
  | some p =>
    if p.2.isEmpty then []
    else (p.2.filter isOpen).map fun c =>
      Effect.send c restaurantId orders

/-! ## Concrete sample values (used by witnesses and counterexamples) -/

/-- A concrete order with the given id, customer and status. -/
def sampleOrder (i : String) (cid : Option String) (st : OrderStatus) :
    ActiveOrder :=
  { id := i, customerId := cid, orderPlacedAt := "2025-01-01",
    status := st, items := [], discountAmount := 0, discountPrice := 0,
    actualPrice := 10, notes := none, paymentIntentId := "pi" }

/-- A concrete receipt for `sampleOrder`. -/
def sampleReceipt (i : String) (st : OrderStatus) : UserOrderReceipt :=
  { id := i, restaurantId := "r1", restaurantName := "R",
    orderPlacedAt := "2025-01-01", items := [], discountAmount := 0,
    discountPrice := 0, actualPrice := 10, status := st }

/-- Order `"a"`, no customer, pending. -/
def oA : ActiveOrder := sampleOrder "a" none OrderStatus.pending

/-- Order `"a"` again, but with a different status: same merge key as
`oA`, different deep value. -/
def oA2 : ActiveOrder := sampleOrder "a" none OrderStatus.preparing

/-- Order `"b"`, no customer, pending. -/
def oB : ActiveOrder := sampleOrder "b" none OrderStatus.pending

/-- A brand-new order with a fresh id. -/
def oNew : ActiveOrder := sampleOrder "n1" none OrderStatus.pending

/-- Order `"o1"` owned by customer `"u1"`, pending. -/
def o1p : ActiveOrder := sampleOrder "o1" (some "u1") OrderStatus.pending

/-- Order `"o1"` owned by customer `"u1"`, advanced to preparing. -/
def o1u : ActiveOrder := sampleOrder "o1" (some "u1") OrderStatus.preparing

/-- Restaurant `"r1"` with no active orders. -/
def restA : Restaurant := { rid := "r1", name := "A", activeOrders := [] }

/-- Restaurant `"r2"` with no active orders. -/
def restB : Restaurant := { rid := "r2", name := "B", activeOrders := [] }

/-- Restaurant `"r1"` whose ledger holds the pending `o1p`. -/
def restC : Restaurant := { rid := "r1", name := "R", activeOrders := [o1p] }

/-- Customer `"u1"` with an email address and a receipt for `"o1"`. -/
def userC : User :=
  { uid := "u1", email := "u1@example.com", firstName := some "U",
    pastOrders := [sampleReceipt "o1" OrderStatus.pending] }

/-- An environment where the persist, every email and every channel are
healthy. -/
def envAllOk : Env :=
  { persistOk := true, emailOk := fun _ => true, isOpen := fun _ => true }

/-- World for the notification-ordering scenario: restaurant `"r1"` holds
`o1p`, customer `"u1"` is registered, no channels are connected. -/
def stC3 : SyncState :=
  { restaurants := [restC], users := [userC], registry := [] }

/-- The update message advancing `"o1"` to preparing. -/
def msgC3 : Msg := { restaurantId := "r1", orders := [o1u] }

/-- World for the cross-restaurant scenario: channel `0` connected (and
admitted) for `"r1"`, channel `1` for `"r2"`. -/
def stPair : SyncState :=
  let st0 : SyncState :=
    { restaurants := [restA, restB], users := [], registry := [] }
  (socketConnect (socketConnect st0 0 "r1").1 1 "r2").1

/-- The message channel `0` sends: it names restaurant `"r2"`, not the
restaurant `"r1"` it was admitted for. -/
def msgCross : Msg := { restaurantId := "r2", orders := [oNew] }

/-! ## Lemmas: the JS `Map` embedding -/

/-- Inserting `o` makes `o` the value found under its own id. -/
theorem jsMapInsert_find_pos (m : List ActiveOrder) (o : ActiveOrder)
    (i : String) (h : o.id = i) :
    (jsMapInsert m o).find? (fun p => p.id == i) = some o := by
  subst h
  unfold jsMapInsert
  split
  · next hany =>
    induction m with
    | nil => simp at hany
    | cons x xs ih =>
      rw [List.map_cons]
      by_cases hx : (x.id == o.id) = true
      · rw [if_pos hx, List.find?_cons]
        simp
      · rw [if_neg hx, List.find?_cons]
        have hxf : (x.id == o.id) = false := by
          simp only [Bool.not_eq_true] at hx; exact hx
        rw [hxf]
        simp only [List.any_cons, Bool.or_eq_true] at hany
        rcases hany with hany | hany
        · exact absurd hany hx
        · exact ih hany
  · next hany =>
    rw [List.find?_append]
    have hnone : m.find? (fun p => p.id == o.id) = none := by
      rw [List.find?_eq_none]
      simp only [Bool.not_eq_true] at hany
      intro x hx
      have := List.any_eq_false.mp hany x hx
      simp [this]
    rw [hnone, List.find?_cons]
    simp

/-- Inserting `o` does not change what is found under a different id. -/
theorem jsMapInsert_find_ne (m : List ActiveOrder) (o : ActiveOrder)
    (i : String) (h : ¬o.id = i) :
    (jsMapInsert m o).find? (fun p => p.id == i) =
      m.find? (fun p => p.id == i) := by
  have hoi : (o.id == i) = false := beq_eq_false_iff_ne.mpr h
  unfold jsMapInsert
  split
  · next hany =>
    clear hany
    induction m with
    | nil => simp
    | cons x xs ih =>
      rw [List.map_cons]
      by_cases hx : (x.id == o.id) = true
      · have hxid : x.id = o.id := by simpa using hx
        have hxi : (x.id == i) = false := by
          rw [hxid]; exact hoi
        rw [if_pos hx, List.find?_cons, hoi, List.find?_cons, hxi]
        exact ih
      · rw [if_neg hx, List.find?_cons, List.find?_cons]
        by_cases hxi : (x.id == i) = true
        · rw [hxi]
        · have hxif : (x.id == i) = false := by
            simp only [Bool.not_eq_true] at hxi; exact hxi
          rw [hxif]
          exact ih
  · rw [List.find?_append, List.find?_cons, hoi]
    simp

/-- `find?` after folding `jsMapInsert` over `l`: the last occurrence in
`l` wins, falling back to the accumulator. -/
theorem foldl_jsMapInsert_find (l : List ActiveOrder) :
    ∀ (m : List ActiveOrder) (i : String),
    (l.foldl jsMapInsert m).find? (fun p => p.id == i) =
      (lastWithId l i).or (m.find? fun p => p.id == i) := by
  induction l with
  | nil => intro m i; simp [lastWithId]
  | cons o l ih =>
    intro m i
    rw [List.foldl_cons, ih]
    by_cases ho : o.id = i
    · rw [jsMapInsert_find_pos m o i ho]
      have hoi : (o.id == i) = true := by simpa using ho
      simp [lastWithId, hoi, Option.or_assoc]
    · rw [jsMapInsert_find_ne m o i ho]
      have hoi : (o.id == i) = false := beq_eq_false_iff_ne.mpr ho
      simp [lastWithId, hoi]

/-- `find?` on the deduplicated list is the last occurrence by id. -/
theorem jsDedupeById_find (l : List ActiveOrder) (i : String) :
    (jsDedupeById l).find? (fun p => p.id == i) = lastWithId l i := by
  unfold jsDedupeById
  rw [foldl_jsMapInsert_find]
  simp

/-- Inserting preserves duplicate-freedom of the ids. -/
theorem jsMapInsert_idsNodup (m : List ActiveOrder) (o : ActiveOrder)
    (h : idsNodup m) : idsNodup (jsMapInsert m o) := by
  unfold jsMapInsert
  split
  · next hany =>
    have hids : ((m.map fun p => if p.id == o.id then o else p).map
        ActiveOrder.id) = m.map ActiveOrder.id := by
      rw [List.map_map]
      refine List.map_congr_left ?_
      intro a _
      show (if (a.id == o.id) = true then o else a).id = a.id
      by_cases ha : (a.id == o.id) = true
      · have haid : a.id = o.id := by simpa using ha
        rw [if_pos ha, haid]
      · rw [if_neg ha]
    unfold idsNodup
    rw [hids]
    exact h
  · next hany =>
    simp only [Bool.not_eq_true] at hany
    unfold idsNodup
    rw [List.map_append, List.nodup_append]
    refine ⟨h, List.nodup_singleton _, ?_⟩
    intro x hx hy
    simp only [List.map_cons, List.map_nil, List.mem_singleton] at hy
    subst hy
    rcases List.mem_map.mp hx with ⟨p, hp, hpid⟩
    have := List.any_eq_false.mp hany p hp
    rw [hpid] at this
    simp at this

/-- The deduplicated list has duplicate-free ids. -/
theorem jsDedupeById_idsNodup (l : List ActiveOrder) :
    idsNodup (jsDedupeById l) := by
  unfold jsDedupeById
  suffices h : ∀ m : List ActiveOrder, idsNodup m →
      idsNodup (l.foldl jsMapInsert m) by
    exact h [] (by simp [idsNodup])
  induction l with
  | nil => intro m hm; exact hm
  | cons o l ih =>
    intro m hm
    rw [List.foldl_cons]
    exact ih _ (jsMapInsert_idsNodup m o hm)

/-- Folding `jsMapInsert` over a list whose ids are disjoint from the
accumulator and duplicate-free just appends it. -/
theorem foldl_jsMapInsert_of_nodup (l : List ActiveOrder) :
    ∀ m : List ActiveOrder, idsNodup (m ++ l) →
      l.foldl jsMapInsert m = m ++ l := by
  induction l with
  | nil => intro m _; simp
  | cons o l ih =>
    intro m hm
    have hnotin : o.id ∉ m.map ActiveOrder.id := by
      unfold idsNodup at hm
      rw [List.map_append, List.nodup_append] at hm
      intro hmem
      exact hm.2.2 hmem (by simp)
    have hany : (m.any fun p => p.id == o.id) = false := by
      rw [List.any_eq_false]
      intro p hp hbeq
      exact hnotin (List.mem_map.mpr ⟨p, hp, by simpa using hbeq⟩)
    rw [List.foldl_cons]
    have hins : jsMapInsert m o = m ++ [o] := by
      unfold jsMapInsert
      rw [hany]
      simp
    rw [hins]
    have hm2 : idsNodup ((m ++ [o]) ++ l) := by
      rw [List.append_assoc]
      exact hm
    rw [ih (m ++ [o]) hm2, List.append_assoc]
    rfl

/-- On a list with duplicate-free ids, deduplication is the identity. -/
theorem jsDedupeById_eq_self (l : List ActiveOrder) (h : idsNodup l) :
    jsDedupeById l = l := by
  unfold jsDedupeById
  rw [foldl_jsMapInsert_of_nodup l [] (by simpa using h)]
  simp

/-! ## Lemmas: `lastWithId` -/

/-- `lastWithId` is `none` exactly when no element has the id. -/
theorem lastWithId_eq_none (l : List ActiveOrder) (i : String) :
    lastWithId l i = none ↔ ∀ o ∈ l, o.id ≠ i := by
  induction l with
  | nil => simp [lastWithId]
  | cons o l ih =>
    unfold lastWithId
    constructor
    · intro h
      rcases Option.or_eq_none.mp h with ⟨h1, h2⟩
      intro x hx
      rcases List.mem_cons.mp hx with hx | hx
      · subst hx
        intro hxi
        rw [if_pos (by simpa using hxi)] at h2
        exact Option.some_ne_none _ h2
      · exact ih.mp h1 x hx
    · intro h
      rw [Option.or_eq_none]
      refine ⟨ih.mpr fun x hx => h x (List.mem_cons_of_mem _ hx), ?_⟩
      rw [if_neg]
      simpa using h o (List.mem_cons_self o l)

/-- Whatever `lastWithId` returns is an element with that id. -/
theorem lastWithId_mem {l : List ActiveOrder} {i : String} {o : ActiveOrder}
    (h : lastWithId l i = some o) : o ∈ l ∧ o.id = i := by
  induction l with
  | nil => simp [lastWithId] at h
  | cons x l ih =>
    unfold lastWithId at h
    cases hl : lastWithId l i with
    | some v =>
      rw [hl] at h
      simp only [Option.or_some] at h
      cases h
      exact ⟨List.mem_cons_of_mem _ (ih hl).1, (ih hl).2⟩
    | none =>
      rw [hl] at h
      simp only [Option.none_or] at h
      by_cases hx : (x.id == i) = true
      · rw [if_pos hx] at h
        cases h
        exact ⟨List.mem_cons_self _ _, by simpa using hx⟩
      · rw [if_neg hx] at h
        exact absurd h (Option.some_ne_none _).symm

/-- On a list with duplicate-free ids, `lastWithId` at a member's id is
that member. -/
theorem lastWithId_of_idsNodup {l : List ActiveOrder} {o : ActiveOrder}
    (h : idsNodup l) (ho : o ∈ l) : lastWithId l o.id = some o := by
  induction l with
  | nil => simp at ho
  | cons x l ih =>
    unfold idsNodup at h
    rw [List.map_cons, List.nodup_cons] at h
    unfold lastWithId
    rcases List.mem_cons.mp ho with rfl | ho
    · have hnone : lastWithId l o.id = none := by
        rw [lastWithId_eq_none]
        intro p hp hpi
        exact h.1 (List.mem_map.mpr ⟨p, hp, hpi⟩)
      rw [hnone, if_pos (by simp)]
      simp
    · have hxo : x.id ≠ o.id := by
        intro hx
        exact h.1 (hx ▸ List.mem_map.mpr ⟨o, ho, rfl⟩)
      rw [ih h.2 ho, if_neg (by simpa using hxo)]
      simp

/-- Elements with id `i` survive a filter whose predicate holds on them,
as far as `lastWithId` is concerned. -/
theorem lastWithId_filter (l : List ActiveOrder) (i : String)
    (p : ActiveOrder → Bool) (hp : ∀ o, o.id = i → p o = true) :
    lastWithId (l.filter p) i = lastWithId l i := by
  induction l with
  | nil => simp
  | cons x l ih =>
    rw [List.filter_cons]
    by_cases hx : p x = true
    · rw [if_pos hx]
      show (lastWithId (l.filter p) i).or
          (if (x.id == i) = true then some x else none) =
        (lastWithId l i).or (if (x.id == i) = true then some x else none)
      rw [ih]
    · rw [if_neg hx, ih]
      have hxi : (x.id == i) = false := by
        rw [beq_eq_false_iff_ne]
        intro hxi
        exact hx (hp x hxi)
      show lastWithId l i = (lastWithId l i).or
        (if (x.id == i) = true then some x else none)
      rw [hxi]
      simp

/-- On a list with duplicate-free ids, `find?` at a member's id returns
that member. -/
theorem find_id_of_idsNodup {l : List ActiveOrder} {o : ActiveOrder}
    (h : idsNodup l) (ho : o ∈ l) :
    l.find? (fun p => p.id == o.id) = some o := by
  induction l with
  | nil => simp at ho
  | cons x l ih =>
    unfold idsNodup at h
    rw [List.map_cons, List.nodup_cons] at h
    rcases List.mem_cons.mp ho with rfl | ho
    · rw [List.find?_cons]
      simp
    · have hxo : (x.id == o.id) = false := by
        rw [beq_eq_false_iff_ne]
        intro hx
        exact h.1 (hx ▸ List.mem_map.mpr ⟨o, ho, rfl⟩)
      rw [List.find?_cons, hxo]
      exact ih h.2 ho

/-- `lastWithId` over an append: the second part wins. -/
theorem lastWithId_append (l1 l2 : List ActiveOrder) (i : String) :
    lastWithId (l1 ++ l2) i = (lastWithId l2 i).or (lastWithId l1 i) := by
  induction l1 with
  | nil => simp [lastWithId]
  | cons x l1 ih =>
    show (lastWithId (l1 ++ l2) i).or _ =
      (lastWithId l2 i).or ((lastWithId l1 i).or _)
    rw [ih, Option.or_assoc]

/-! ## The merged list, characterized -/

/-- Looking up an id in `mergedOrders`: the last occurrence in `incoming`
wins; an id untouched by `incoming` falls back to the last occurrence in
`currentOrders`. -/
theorem mergedOrders_find (cur upd : List ActiveOrder) (i : String) :
    (mergedOrders cur upd).find? (fun o => o.id == i) =
      (lastWithId upd i).or (lastWithId cur i) := by
  unfold mergedOrders
  rw [jsDedupeById_find, lastWithId_append]
  by_cases hu : ∃ u ∈ upd, u.id = i
  · rcases hu with ⟨u, hu, hui⟩
    cases hl : lastWithId upd i with
    | none => exact absurd ((lastWithId_eq_none upd i).mp hl u hu) (by simp [hui])
    | some v => simp
  · push_neg at hu
    rw [lastWithId_filter]
    intro o hoi
    have : (upd.any fun u => u.id == o.id) = false := by
      rw [List.any_eq_false]
      intro x hx hbeq
      exact hu x hx (by rw [← hoi]; simpa using hbeq)
    rw [this]
    rfl

/-- C1: For every `currentList` and `incoming`, the merged output is the
union of the two keyed by `id`: it holds at most one order per id; looking
any id up yields the `incoming` version when the id occurs in `incoming`
(the later occurrence winning when `incoming` duplicates an id) and
otherwise the `currentList` version; and its members are exactly those
winners. -/
theorem mergedOrders_union_lastWriterWins (cur upd : List ActiveOrder) :
    idsNodup (mergedOrders cur upd) ∧
    (∀ i, (mergedOrders cur upd).find? (fun o => o.id == i) =
      (lastWithId upd i).or (lastWithId cur i)) ∧
    (∀ o, o ∈ mergedOrders cur upd ↔
      (lastWithId upd o.id).or (lastWithId cur o.id) = some o) := by
  refine ⟨jsDedupeById_idsNodup _, fun i => mergedOrders_find cur upd i,
    fun o => ?_⟩
  constructor
  · intro ho
    rw [← mergedOrders_find cur upd o.id]
    exact find_id_of_idsNodup (jsDedupeById_idsNodup _) ho
  · intro h
    have hfind := mergedOrders_find cur upd o.id
    rw [h] at hfind
    exact List.mem_of_find?_eq_some hfind

/-- C2: under the spec's Order List invariant on the ledger list (at most
one order per id), an incoming order is in the changed set exactly when
`currentList` has no order with its id or the existing order with that id
differs from it by deep value equality; and every order only in
`currentList` (untouched by `incoming`) appears in merged unchanged. -/
theorem changedOrders_deepDiff_carryThrough (cur upd : List ActiveOrder)
    (h : idsNodup cur) :
    (∀ u, u ∈ changedOrders cur upd ↔
      u ∈ upd ∧ ∀ c ∈ cur, c.id = u.id → c ≠ u) ∧
    (∀ c ∈ cur, (∀ u ∈ upd, u.id ≠ c.id) → c ∈ mergedOrders cur upd) := by
  constructor
  · intro u
    unfold changedOrders
    rw [List.mem_filter]
    refine and_congr_right fun _ => ?_
    cases hfind : cur.find? (fun o => o.id == u.id) with
    | none =>
      constructor
      · intro _ c hc hci
        exact (List.find?_eq_none.mp hfind c hc (by simpa using hci)).elim
      · intro _
        rfl
    | some e =>
      have he_mem : e ∈ cur := List.mem_of_find?_eq_some hfind
      have he_id : e.id = u.id := by simpa using List.find?_some hfind
      constructor
      · intro hne c hc hci
        have hce : c = e :=
          List.inj_on_of_nodup_map h hc he_mem (by rw [hci, he_id])
        subst hce
        exact bne_iff_ne.mp hne
      · intro hall
        exact bne_iff_ne.mpr (hall e he_mem he_id)
  · intro c hc hcu
    have hupd : lastWithId upd c.id = none := by
      rw [lastWithId_eq_none]
      exact hcu
    have hcur : lastWithId cur c.id = some c := lastWithId_of_idsNodup h hc
    have hfind := mergedOrders_find cur upd c.id
    rw [hupd, hcur] at hfind
    simp only [Option.none_or] at hfind
    exact List.mem_of_find?_eq_some hfind

/-- Witness for C2: with `currentList = [oA, oB]` and `incoming = [oA2]`
(same id as `oA`, different status), `oA2` is changed and the untouched
`oB` is carried into merged. -/
theorem changedOrders_deepDiff_carryThrough_witness :
    oA2 ∈ changedOrders [oA, oB] [oA2] ∧ oB ∈ mergedOrders [oA, oB] [oA2] := by
  have h := changedOrders_deepDiff_carryThrough [oA, oB] [oA2] (by decide)
  exact ⟨(h.1 oA2).mpr ⟨by decide, by decide⟩, h.2 oB (by decide) (by decide)⟩

/-- C7 counterexample: with `currentList = [oA, oB]` and
`incoming = [oA2]` (an update of `oA`), merged is `[oB, oA2]` — the
updated order does not retain its original position; the claim predicts
`[oA2, oB]`. -/
theorem mergedOrdering_cx :
    mergedOrders [oA, oB] [oA2] = [oB, oA2] ∧
    mergedOrders [oA, oB] [oA2] ≠ [oA2, oB] := by
  constructor
  · rfl
  · decide

/-- C7 amended: merged consists of the `currentList` orders not touched by
`incoming`, in their `currentList` order, followed by all of `incoming` in
its own order — updated orders move to the `incoming` section instead of
retaining their `currentList` positions (stated under duplicate-free ids
on both inputs). -/
theorem mergedOrdering_amended (cur upd : List ActiveOrder)
    (hc : idsNodup cur) (hu : idsNodup upd) :
    mergedOrders cur upd =
      (cur.filter fun o => !upd.any fun u => u.id == o.id) ++ upd := by
  unfold mergedOrders
  apply jsDedupeById_eq_self
  unfold idsNodup
  rw [List.map_append, List.nodup_append]
  refine ⟨?_, hu, ?_⟩
  · exact List.Nodup.sublist
      (List.Sublist.map ActiveOrder.id (List.filter_sublist cur)) hc
  · intro x hx hy
    rcases List.mem_map.mp hx with ⟨o, ho, rfl⟩
    rcases List.mem_map.mp hy with ⟨u, hu2, huid⟩
    rcases List.mem_filter.mp ho with ⟨_, hpred⟩
    simp only [Bool.not_eq_true'] at hpred
    have hne : u.id ≠ o.id := by
      simpa using List.any_eq_false.mp hpred u hu2
    exact hne huid

/-- Witness for the amended C7 at the counterexample's input. -/
theorem mergedOrdering_amended_witness :
    mergedOrders [oA, oB] [oA2] =
      (([oA, oB].filter fun o => !([oA2].any fun u => u.id == o.id)) ++ [oA2]) :=
  mergedOrdering_amended [oA, oB] [oA2] (by decide) (by decide)

/-- C8: under the spec's Order List invariant (duplicate-free ids in the
ledger list), reconciliation is an identity both for `incoming =
currentList` and for empty `incoming`: merged equals `currentList` and the
changed set is empty. -/
theorem reconcileIdentity (cur : List ActiveOrder) (h : idsNodup cur) :
    changedOrders cur cur = [] ∧ mergedOrders cur cur = cur ∧
    changedOrders cur [] = [] ∧ mergedOrders cur [] = cur := by
  refine ⟨?_, ?_, rfl, ?_⟩
  · unfold changedOrders
    rw [List.filter_eq_nil_iff]
    intro u hu
    rw [find_id_of_idsNodup h hu]
    simp
  · unfold mergedOrders
    have hfil : (cur.filter fun o => !cur.any fun u => u.id == o.id) = [] := by
      rw [List.filter_eq_nil_iff]
      intro o ho
      simp only [Bool.not_eq_true', Bool.not_eq_false]
      rw [List.any_eq_true]
      exact ⟨o, ho, by simp⟩
    rw [hfil, List.nil_append]
    exact jsDedupeById_eq_self cur h
  · unfold mergedOrders
    have hfil : (cur.filter fun o =>
        !List.any ([] : List ActiveOrder) fun u => u.id == o.id) = cur := by
      simp
    rw [hfil, List.append_nil]
    exact jsDedupeById_eq_self cur h

/-- Witness for C8 at a concrete duplicate-free ledger list. -/
theorem reconcileIdentity_witness :
    changedOrders [oA, oB] [oA, oB] = [] ∧
    mergedOrders [oA, oB] [oA, oB] = [oA, oB] ∧
    changedOrders [oA, oB] [] = [] ∧
    mergedOrders [oA, oB] [] = [oA, oB] :=
  reconcileIdentity [oA, oB] (by decide)

/-! ## Lemmas: the connection registry -/

/-- `find?` by key commutes with a key-preserving rewrite of the entries. -/
theorem find_map_fstPreserving (reg : Registry)
    (g : String × List Nat → String × List Nat)
    (hg : ∀ p, (g p).1 = p.1) (r : String) :
    (reg.map g).find? (fun p => p.1 == r) =
      (reg.find? fun p => p.1 == r).map g := by
  induction reg with
  | nil => rfl
  | cons x xs ih =>
    rw [List.map_cons, List.find?_cons, List.find?_cons, hg x]
    by_cases hx : (x.1 == r) = true
    · rw [hx]
      rfl
    · have hxf : (x.1 == r) = false := by
        simp only [Bool.not_eq_true] at hx
        exact hx
      rw [hxf]
      exact ih

/-- Registering is idempotent: adding an already-present channel is a
no-op (JS `Set.add` semantics). -/
theorem addClient_idem (reg : Registry) (r : String) (c : Nat) :
    addClient (addClient reg r c) r c = addClient reg r c := by
  unfold addClient
  by_cases hany : (reg.any fun p => p.1 == r) = true
  · rw [if_pos hany]
    have hany2 : ((reg.map fun p => if p.1 == r then
        (p.1, if p.2.contains c then p.2 else p.2 ++ [c]) else p).any
          fun p => p.1 == r) = true := by
      rcases List.any_eq_true.mp hany with ⟨p, hp, hpr⟩
      refine List.any_eq_true.mpr ⟨_, List.mem_map_of_mem _ hp, ?_⟩
      rw [if_pos hpr]
      exact hpr
    rw [if_pos hany2, List.map_map]
    refine List.map_congr_left ?_
    intro p _
    show (fun p => if (p.1 == r) = true then
        (p.1, if p.2.contains c then p.2 else p.2 ++ [c]) else p)
      (if (p.1 == r) = true then
        (p.1, if p.2.contains c then p.2 else p.2 ++ [c]) else p) =
      if (p.1 == r) = true then
        (p.1, if p.2.contains c then p.2 else p.2 ++ [c]) else p
    by_cases hp : (p.1 == r) = true
    · rw [if_pos hp]
      dsimp only
      rw [if_pos hp]
      by_cases hcont : p.2.contains c = true
      · rw [if_pos hcont, if_pos hcont]
      · rw [if_neg hcont]
        have hc2 : (p.2 ++ [c]).contains c = true := by
          exact List.elem_iff.mpr (by simp)
        rw [if_pos hc2]
    · rw [if_neg hp]
      dsimp only
      rw [if_neg hp]
  · rw [if_neg hany]
    have hany2 : ((reg ++ [(r, [c])]).any fun p => p.1 == r) = true := by
      refine List.any_eq_true.mpr ⟨(r, [c]), ?_, by simp⟩
      simp
    rw [if_pos hany2, List.map_append]
    have h1 : (reg.map fun p => if p.1 == r then
        (p.1, if p.2.contains c then p.2 else p.2 ++ [c]) else p) = reg := by
      have := List.map_congr_left (l := reg)
        (f := fun p => if p.1 == r then
          (p.1, if p.2.contains c then p.2 else p.2 ++ [c]) else p)
        (g := fun p => p) ?_
      · rw [this]
        exact List.map_id' reg
      · intro p hp
        have hpf : (p.1 == r) = false := by
          simp only [Bool.not_eq_true] at hany
          have h2 := List.any_eq_false.mp hany p hp
          simp only [Bool.not_eq_true] at h2
          exact h2
        dsimp only
        rw [if_neg (by simp [hpf])]
    rw [h1]
    have h2 : ([(r, [c])].map fun p => if p.1 == r then
        (p.1, if p.2.contains c then p.2 else p.2 ++ [c]) else p)
        = [(r, [c])] := by
      simp [List.elem_iff]
    rw [h2]

/-- After registering, the channel is in the restaurant's set. -/
theorem mem_getClients_addClient (reg : Registry) (r : String) (c : Nat) :
    c ∈ getClients (addClient reg r c) r := by
  unfold addClient getClients
  by_cases hany : (reg.any fun p => p.1 == r) = true
  · rw [if_pos hany,
      find_map_fstPreserving reg _ (fun p => by split <;> rfl) r]
    rcases List.any_eq_true.mp hany with ⟨p, hp, hpr⟩
    have hIsSome : (reg.find? fun p => p.1 == r).isSome = true :=
      List.find?_isSome.mpr ⟨p, hp, hpr⟩
    have hsome : ∃ q, (reg.find? fun p => p.1 == r) = some q := by
      cases hq : reg.find? fun p => p.1 == r
      · rw [hq] at hIsSome
        simp at hIsSome
      · exact ⟨_, rfl⟩
    rcases hsome with ⟨q, hq⟩
    have hq1 := List.find?_some hq
    rw [hq]
    simp only [Option.map_some', Option.getD_some]
    rw [if_pos hq1]
    dsimp only
    by_cases hcont : q.2.contains c = true
    · rw [if_pos hcont]
      exact List.elem_iff.mp hcont
    · rw [if_neg hcont]
      simp
  · rw [if_neg hany, List.find?_append]
    have hnone : (reg.find? fun p => p.1 == r) = none := by
      rw [List.find?_eq_none]
      simp only [Bool.not_eq_true] at hany
      intro p hp
      have := List.any_eq_false.mp hany p hp
      simpa using this
    rw [hnone]
    simp

/-- After unregistering, the channel is gone from the restaurant's set. -/
theorem not_mem_getClients_removeClient (reg : Registry) (r : String)
    (c : Nat) : c ∉ getClients (removeClient reg r c) r := by
  unfold removeClient getClients
  intro hc
  cases hfind : ((reg.map fun p =>
      if p.1 == r then (p.1, p.2.filter fun x => !(x == c)) else p).filter
        fun p => !(p.1 == r) || !p.2.isEmpty).find? fun p => p.1 == r with
  | none =>
    rw [hfind] at hc
    simp at hc
  | some q =>
    rw [hfind] at hc
    simp only [Option.map_some', Option.getD_some] at hc
    have hq1 := List.find?_some hfind
    have hq_mem := List.mem_of_find?_eq_some hfind
    have hq_mem2 := List.mem_of_mem_filter hq_mem
    rcases List.mem_map.mp hq_mem2 with ⟨p, hp, hgp⟩
    by_cases hp1 : (p.1 == r) = true
    · rw [if_pos hp1] at hgp
      rw [← hgp] at hc
      dsimp only at hc
      rcases List.mem_filter.mp hc with ⟨_, hpred⟩
      simp at hpred
    · rw [if_neg hp1] at hgp
      rw [← hgp] at hq1
      exact hp1 hq1

/-- Every entry of a reachable registry has a non-empty channel set. -/
theorem reachableRegistry_nonempty {reg : Registry}
    (h : ReachableRegistry reg) : ∀ p ∈ reg, p.2 ≠ [] := by
  induction h with
  | empty =>
    intro p hp
    simp at hp
  | add reg r c _ ih =>
    intro p hp
    unfold addClient at hp
    by_cases hany : (reg.any fun q => q.1 == r) = true
    · rw [if_pos hany] at hp
      rcases List.mem_map.mp hp with ⟨q, hq, hgq⟩
      by_cases hq1 : (q.1 == r) = true
      · rw [if_pos hq1] at hgq
        rw [← hgq]
        dsimp only
        split
        · exact ih q hq
        · simp
      · rw [if_neg hq1] at hgq
        rw [← hgq]
        exact ih q hq
    · rw [if_neg hany] at hp
      rcases List.mem_append.mp hp with hp | hp
      · exact ih p hp
      · simp only [List.mem_singleton] at hp
        subst hp
        simp
  | remove reg r c _ ih =>
    intro p hp
    unfold removeClient at hp
    rcases List.mem_filter.mp hp with ⟨hp2, hpred⟩
    by_cases hp1 : (p.1 == r) = true
    · rw [hp1] at hpred
      simp only [Bool.not_true, Bool.false_or, Bool.not_eq_true'] at hpred
      intro hnil
      rw [hnil] at hpred
      simp at hpred
    · rcases List.mem_map.mp hp2 with ⟨q, hq, hgq⟩
      by_cases hq1 : (q.1 == r) = true
      · rw [if_pos hq1] at hgq
        rw [← hgq] at hp1
        exact absurd hq1 hp1
      · rw [if_neg hq1] at hgq
        rw [← hgq]
        exact ih q hq

/-- C9: `register` adds the channel to the restaurant's set (creating it
if absent) and is idempotent; `unregister` removes the channel (deleting
the entry when its set empties); and consequently every restaurant key in
a registry reachable from the empty one maps to a non-empty channel
set. -/
theorem registryInvariants :
    (∀ (reg : Registry) (r : String) (c : Nat),
      addClient (addClient reg r c) r c = addClient reg r c) ∧
    (∀ (reg : Registry) (r : String) (c : Nat),
      c ∈ getClients (addClient reg r c) r) ∧
    (∀ (reg : Registry) (r : String) (c : Nat),
      c ∉ getClients (removeClient reg r c) r) ∧
    (∀ reg : Registry, ReachableRegistry reg → ∀ p ∈ reg, p.2 ≠ []) :=
  ⟨addClient_idem, mem_getClients_addClient, not_mem_getClients_removeClient,
    fun _ h => reachableRegistry_nonempty h⟩

/-- Witness for C9 at concrete registries, including the non-emptiness
invariant at a concrete reachable registry. -/
theorem registryInvariants_witness :
    addClient (addClient [] "r1" 0) "r1" 0 = addClient [] "r1" 0 ∧
    (0 : Nat) ∈ getClients (addClient [] "r1" 0) "r1" ∧
    (0 : Nat) ∉ getClients (removeClient (addClient [] "r1" 0) "r1" 0) "r1" ∧
    (("r1", [0]) : String × List Nat).2 ≠ [] :=
  ⟨registryInvariants.1 [] "r1" 0, registryInvariants.2.1 [] "r1" 0,
    registryInvariants.2.2.1 (addClient [] "r1" 0) "r1" 0,
    registryInvariants.2.2.2 (addClient [] "r1" 0)
      (ReachableRegistry.add [] "r1" 0 ReachableRegistry.empty)
      ("r1", [0]) (by decide)⟩

/-! ## Lemmas: the notification runner -/

/-- Equation: an order without a customer is skipped entirely. -/
theorem notifyOrder_customerId_none (users : List User) (f : String → Bool)
    (o : ActiveOrder) (h : o.customerId = none) :
    notifyOrder users f o = (users, []) := by
  unfold notifyOrder
  rw [h]

/-- Equation: an order with a customer runs the some-branch body. -/
theorem notifyOrder_customerId_some (users : List User) (f : String → Bool)
    (o : ActiveOrder) (cid : String) (h : o.customerId = some cid) :
    notifyOrder users f o = notifyOrderSome users f o cid := by
  unfold notifyOrder
  rw [h]

/-- The user store the notification step produces does not depend on
whether emails succeed. -/
theorem notifyOrderSome_fst_indep (users : List User) (f g : String → Bool)
    (o : ActiveOrder) (cid : String) :
    (notifyOrderSome users f o cid).1 = (notifyOrderSome users g o cid).1 := by
  unfold notifyOrderSome
  by_cases hm : (users.any (userMatches cid o.id)) = true
  · rw [if_pos hm, if_pos hm]
    cases hfind : (writeStatusToUsers users cid o).find?
        fun u => u.uid == cid with
    | none => rfl
    | some u =>
      dsimp only
      by_cases he : (u.email == "") = true
      · rw [if_pos he, if_pos he]
      · rw [if_neg he, if_neg he]
  · rw [if_neg hm, if_neg hm]

/-- Lift of `notifyOrderSome_fst_indep` to `notifyOrder`. -/
theorem notifyOrder_fst_indep (users : List User) (f g : String → Bool)
    (o : ActiveOrder) :
    (notifyOrder users f o).1 = (notifyOrder users g o).1 := by
  cases hcid : o.customerId with
  | none =>
    rw [notifyOrder_customerId_none users f o hcid,
      notifyOrder_customerId_none users g o hcid]
  | some cid =>
    rw [notifyOrder_customerId_some users f o cid hcid,
      notifyOrder_customerId_some users g o cid hcid]
    exact notifyOrderSome_fst_indep users f g o cid

/-- The notification step emits no persist and no send effects. -/
theorem notifyOrderSome_no_ps (users : List User) (f : String → Bool)
    (o : ActiveOrder) (cid : String) :
    ∀ e ∈ (notifyOrderSome users f o cid).2,
      e.isPersist = false ∧ e.isSend = false := by
  unfold notifyOrderSome
  by_cases hm : (users.any (userMatches cid o.id)) = true
  · rw [if_pos hm]
    cases hfind : (writeStatusToUsers users cid o).find?
        fun u => u.uid == cid with
    | none =>
      intro e he
      simp only [List.mem_cons, List.not_mem_nil, or_false] at he
      rcases he with rfl | rfl <;> exact ⟨rfl, rfl⟩
    | some u =>
      dsimp only
      by_cases he : (u.email == "") = true
      · rw [if_pos he]
        intro e hee
        simp only [List.mem_cons, List.not_mem_nil, or_false] at hee
        rcases hee with rfl | rfl <;> exact ⟨rfl, rfl⟩
      · rw [if_neg he]
        intro e hee
        by_cases hf : (f u.email) = true
        · rw [if_pos hf] at hee
          simp only [List.append_nil, List.mem_cons, List.not_mem_nil,
            or_false] at hee
          rcases hee with rfl | rfl <;> exact ⟨rfl, rfl⟩
        · rw [if_neg hf] at hee
          simp only [List.mem_append, List.mem_cons, List.not_mem_nil,
            or_false] at hee
          rcases hee with (rfl | rfl) | rfl <;> exact ⟨rfl, rfl⟩
  · rw [if_neg hm]
    intro e hee
    simp only [List.mem_cons, List.not_mem_nil, or_false] at hee
    subst hee
    exact ⟨rfl, rfl⟩

/-- Lift of `notifyOrderSome_no_ps` to `notifyOrder`. -/
theorem notifyOrder_no_ps (users : List User) (f : String → Bool)
    (o : ActiveOrder) :
    ∀ e ∈ (notifyOrder users f o).2,
      e.isPersist = false ∧ e.isSend = false := by
  cases hcid : o.customerId with
  | none =>
    rw [notifyOrder_customerId_none users f o hcid]
    intro e he
    simp at he
  | some cid =>
    rw [notifyOrder_customerId_some users f o cid hcid]
    exact notifyOrderSome_no_ps users f o cid

/-- The final user store of the notification loop does not depend on
whether emails succeed. -/
theorem runNotifications_fst_indep (f g : String → Bool) :
    ∀ (changed : List ActiveOrder) (users : List User),
    (runNotifications users f changed).1 =
      (runNotifications users g changed).1 := by
  intro changed
  induction changed with
  | nil => intro users; rfl
  | cons o rest ih =>
    intro users
    show (runNotifications (notifyOrder users f o).1 f rest).1 =
      (runNotifications (notifyOrder users g o).1 g rest).1
    rw [notifyOrder_fst_indep users f g o]
    exact ih _

/-- The notification loop emits no persist and no send effects. -/
theorem runNotifications_no_ps (f : String → Bool) :
    ∀ (changed : List ActiveOrder) (users : List User),
    ∀ e ∈ (runNotifications users f changed).2,
      e.isPersist = false ∧ e.isSend = false := by
  intro changed
  induction changed with
  | nil =>
    intro users e he
    simp [runNotifications] at he
  | cons o rest ih =>
    intro users e he
    have he2 : e ∈ (notifyOrder users f o).2 ++
        (runNotifications (notifyOrder users f o).1 f rest).2 := he
    rcases List.mem_append.mp he2 with h | h
    · exact notifyOrder_no_ps users f o e h
    · exact ih _ e h

/-- Filtering the loop's effects for persist/send yields nothing. -/
theorem runNotifications_filter_ps (f : String → Bool)
    (changed : List ActiveOrder) (users : List User) :
    (runNotifications users f changed).2.filter
      (fun e => e.isPersist || e.isSend) = [] := by
  rw [List.filter_eq_nil_iff]
  intro e he
  have h := runNotifications_no_ps f changed users e he
  simp [h.1, h.2]

/-! ## Lemmas: the message handler -/

/-- Equation: unknown restaurant — log and return. -/
theorem handleMessage_noRestaurant (st : SyncState) (env : Env) (msg : Msg)
    (h : st.restaurants.find? (fun r => r.rid == msg.restaurantId) = none) :
    handleMessage st env msg =
      (st, [Effect.logError "restaurant not found"]) := by
  unfold handleMessage
  rw [h]

/-- Equation: restaurant found and the persist succeeds. -/
theorem handleMessage_persistOk (st : SyncState) (f : String → Bool)
    (op : Nat → Bool) (msg : Msg) (rest : Restaurant)
    (h : st.restaurants.find? (fun r => r.rid == msg.restaurantId)
      = some rest) :
    handleMessage st ⟨true, f, op⟩ msg =
      (⟨updateFirst st.restaurants (fun r => r.rid == msg.restaurantId)
          (fun r => { r with
            activeOrders := mergedOrders rest.activeOrders msg.orders }),
        (runNotifications st.users f
          (changedOrders rest.activeOrders msg.orders)).1,
        st.registry⟩,
       (runNotifications st.users f
          (changedOrders rest.activeOrders msg.orders)).2 ++
         [Effect.persist msg.restaurantId
           (mergedOrders rest.activeOrders msg.orders)] ++
         ((getClients st.registry msg.restaurantId).filter op).map
           (fun c => Effect.send c msg.restaurantId
             (mergedOrders rest.activeOrders msg.orders))) := by
  unfold handleMessage
  rw [h]
  rfl

/-- Equation: restaurant found and the persist fails (the thrown error
reaches the outer `catch`, which only logs; the user-record writes that
already happened stay). -/
theorem handleMessage_persistFail (st : SyncState) (f : String → Bool)
    (op : Nat → Bool) (msg : Msg) (rest : Restaurant)
    (h : st.restaurants.find? (fun r => r.rid == msg.restaurantId)
      = some rest) :
    handleMessage st ⟨false, f, op⟩ msg =
      (⟨st.restaurants,
        (runNotifications st.users f
          (changedOrders rest.activeOrders msg.orders)).1,
        st.registry⟩,
       (runNotifications st.users f
          (changedOrders rest.activeOrders msg.orders)).2 ++
         [Effect.logError "failed to process incoming message"]) := by
  unfold handleMessage
  rw [h]
  rfl

/-- An element a positional update does not touch stays in the list. -/
theorem mem_updateFirst_of_ne {α : Type} (l : List α) (p : α → Bool)
    (g : α → α) (x : α) (hx : x ∈ l) (hpx : p x = false) :
    x ∈ updateFirst l p g := by
  induction l with
  | nil => simp at hx
  | cons y ys ih =>
    unfold updateFirst
    rcases List.mem_cons.mp hx with rfl | hx2
    · rw [if_neg (by simp [hpx])]
      exact List.mem_cons_self _ _
    · by_cases hy : p y = true
      · rw [if_pos hy]
        exact List.mem_cons_of_mem _ hx2
      · rw [if_neg hy]
        exact List.mem_cons_of_mem _ (ih hx2)

/-- C4 counterexample: channel `0` is admitted (and registered) for
restaurant `"r1"`, yet the message it sends names `"r2"`; because the
handler destructures `restaurantId` from the message (shadowing the
connection's), processing mutates `"r2"`'s ledger entry and broadcasts to
`"r2"`'s channel — a cross-restaurant operation. -/
theorem crossRestaurant_cx :
    0 ∈ getClients stPair.registry "r1" ∧
    1 ∈ getClients stPair.registry "r2" ∧
    (handleMessage stPair envAllOk msgCross).1.restaurants =
      [restA, { restB with activeOrders := [oNew] }] ∧
    Effect.persist "r2" [oNew] ∈ (handleMessage stPair envAllOk msgCross).2 ∧
    Effect.send 1 "r2" [oNew] ∈ (handleMessage stPair envAllOk msgCross).2 ∧
    ("r2" : String) ≠ "r1" := by
  decide

/-- C4 amended: the handler partitions by the restaurant id carried in
the *message*, not the channel's admitted restaurant: every ledger persist
and every send in the trace targets `msg.restaurantId` and only channels
registered for `msg.restaurantId`; ledger entries of other restaurants and
the registry are untouched.  No cross-restaurant operation occurs exactly
when the message's id equals the channel's admitted one — which the
handler does not enforce. -/
theorem handlerFrame_messageRestaurant (st : SyncState) (b : Bool)
    (f : String → Bool) (op : Nat → Bool) (msg : Msg) :
    (∀ rid os, Effect.persist rid os ∈ (handleMessage st ⟨b, f, op⟩ msg).2 →
      rid = msg.restaurantId) ∧
    (∀ ch rid os,
      Effect.send ch rid os ∈ (handleMessage st ⟨b, f, op⟩ msg).2 →
      rid = msg.restaurantId ∧
        ch ∈ getClients st.registry msg.restaurantId) ∧
    (∀ r ∈ st.restaurants, r.rid ≠ msg.restaurantId →
      r ∈ (handleMessage st ⟨b, f, op⟩ msg).1.restaurants) ∧
    (handleMessage st ⟨b, f, op⟩ msg).1.registry = st.registry := by
  cases hr : st.restaurants.find? (fun r => r.rid == msg.restaurantId) with
  | none =>
    rw [handleMessage_noRestaurant st ⟨b, f, op⟩ msg hr]
    refine ⟨?_, ?_, ?_, rfl⟩
    · intro rid os hmem
      simp at hmem
    · intro ch rid os hmem
      simp at hmem
    · intro r hrmem _
      exact hrmem
  | some rest =>
    cases b with
    | true =>
      rw [handleMessage_persistOk st f op msg rest hr]
      refine ⟨?_, ?_, ?_, rfl⟩
      · intro rid os hmem
        rcases List.mem_append.mp hmem with hmem | hmem
        · rcases List.mem_append.mp hmem with hmem | hmem
          · have hps := runNotifications_no_ps f _ _ _ hmem
            simp [Effect.isPersist] at hps
          · simp only [List.mem_singleton] at hmem
            injection hmem with h1 h2
        · rcases List.mem_map.mp hmem with ⟨c, _, hc⟩
          simp at hc
      · intro ch rid os hmem
        rcases List.mem_append.mp hmem with hmem | hmem
        · rcases List.mem_append.mp hmem with hmem | hmem
          · have hps := runNotifications_no_ps f _ _ _ hmem
            simp [Effect.isSend] at hps
          · simp only [List.mem_singleton] at hmem
            simp at hmem
        · rcases List.mem_map.mp hmem with ⟨c, hcmem, hc⟩
          injection hc with h1 h2 h3
          subst h1
          refine ⟨h2.symm, ?_⟩
          exact (List.mem_filter.mp hcmem).1
      · intro r hrmem hne
        exact mem_updateFirst_of_ne st.restaurants _ _ r hrmem
          (beq_eq_false_iff_ne.mpr hne)
    | false =>
      rw [handleMessage_persistFail st f op msg rest hr]
      refine ⟨?_, ?_, ?_, rfl⟩
      · intro rid os hmem
        rcases List.mem_append.mp hmem with hmem | hmem
        · have hps := runNotifications_no_ps f _ _ _ hmem
          simp [Effect.isPersist] at hps
        · simp at hmem
      · intro ch rid os hmem
        rcases List.mem_append.mp hmem with hmem | hmem
        · have hps := runNotifications_no_ps f _ _ _ hmem
          simp [Effect.isSend] at hps
        · simp at hmem
      · intro r hrmem _
        exact hrmem

/-- Witness for the amended C4: the untouched restaurant `"r1"` entry
survives the cross-restaurant update of `"r2"`. -/
theorem handlerFrame_messageRestaurant_witness :
    restA ∈ (handleMessage stPair envAllOk msgCross).1.restaurants :=
  (handlerFrame_messageRestaurant stPair true (fun _ => true)
    (fun _ => true) msgCross).2.2.1 restA (by decide) (by decide)

/-- C3 counterexample: in a run where order `"o1"` of customer `"u1"`
advances to preparing, the trace contains the ledger persist, and a
notification effect (the customer-record write and the email attempt)
occurs strictly before the first persist — the notification runner runs
before persistence, not after it. -/
theorem notificationsPrecedePersist_cx :
    ((handleMessage stC3 envAllOk msgC3).2.any Effect.isPersist) = true ∧
    (((handleMessage stC3 envAllOk msgC3).2.takeWhile
      fun e => !e.isPersist).any Effect.isNotif) = true := by
  decide

/-- C3 amended: the notification side-effect runner runs *before* the
ledger persist — every trace splits into a prefix with no persist and no
send (holding all notification effects) followed by a suffix with no
notification effects; and the outcome of the email dispatches (caught
per-order) affects neither the resulting state nor the persist/send
effects of the trace. -/
theorem notificationsPrecedePersist (st : SyncState) (b : Bool)
    (f : String → Bool) (op : Nat → Bool) (msg : Msg) :
    (∃ pre post,
      (handleMessage st ⟨b, f, op⟩ msg).2 = pre ++ post ∧
      (∀ e ∈ pre, e.isPersist = false ∧ e.isSend = false) ∧
      (∀ e ∈ post, e.isNotif = false)) ∧
    (handleMessage st ⟨b, f, op⟩ msg).1 =
      (handleMessage st ⟨b, fun _ => true, op⟩ msg).1 ∧
    (handleMessage st ⟨b, f, op⟩ msg).2.filter
        (fun e => e.isPersist || e.isSend) =
      (handleMessage st ⟨b, fun _ => true, op⟩ msg).2.filter
        (fun e => e.isPersist || e.isSend) := by
  cases hr : st.restaurants.find? (fun r => r.rid == msg.restaurantId) with
  | none =>
    rw [handleMessage_noRestaurant st ⟨b, f, op⟩ msg hr,
      handleMessage_noRestaurant st ⟨b, fun _ => true, op⟩ msg hr]
    refine ⟨⟨[], [Effect.logError "restaurant not found"], rfl, ?_, ?_⟩,
      rfl, rfl⟩
    · intro e he
      simp at he
    · intro e he
      simp only [List.mem_singleton] at he
      subst he
      rfl
  | some rest =>
    cases b with
    | true =>
      rw [handleMessage_persistOk st f op msg rest hr,
        handleMessage_persistOk st (fun _ => true) op msg rest hr]
      refine ⟨⟨(runNotifications st.users f
          (changedOrders rest.activeOrders msg.orders)).2,
        [Effect.persist msg.restaurantId
          (mergedOrders rest.activeOrders msg.orders)] ++
          ((getClients st.registry msg.restaurantId).filter op).map
            (fun c => Effect.send c msg.restaurantId
              (mergedOrders rest.activeOrders msg.orders)),
        ?_, ?_, ?_⟩, ?_, ?_⟩
      · rw [List.append_assoc]
      · exact fun e he => runNotifications_no_ps f _ _ e he
      · intro e he
        rcases List.mem_append.mp he with he | he
        · simp only [List.mem_singleton] at he
          subst he
          rfl
        · rcases List.mem_map.mp he with ⟨c, _, rfl⟩
          rfl
      · rw [runNotifications_fst_indep f (fun _ => true)
          (changedOrders rest.activeOrders msg.orders) st.users]
      · rw [List.filter_append, List.filter_append, List.filter_append,
          List.filter_append, runNotifications_filter_ps f,
          runNotifications_filter_ps (fun _ => true)]
    | false =>
      rw [handleMessage_persistFail st f op msg rest hr,
        handleMessage_persistFail st (fun _ => true) op msg rest hr]
      refine ⟨⟨(runNotifications st.users f
          (changedOrders rest.activeOrders msg.orders)).2,
        [Effect.logError "failed to process incoming message"],
        rfl, ?_, ?_⟩, ?_, ?_⟩
      · exact fun e he => runNotifications_no_ps f _ _ e he
      · intro e he
        simp only [List.mem_singleton] at he
        subst he
        rfl
      · rw [runNotifications_fst_indep f (fun _ => true)
          (changedOrders rest.activeOrders msg.orders) st.users]
      · rw [List.filter_append, List.filter_append,
          runNotifications_filter_ps f,
          runNotifications_filter_ps (fun _ => true)]

/-- Witness for the amended C3: with every email failing, the resulting
state is the same as with every email succeeding. -/
theorem notificationsPrecedePersist_witness :
    (handleMessage stC3 ⟨true, fun _ => false, fun _ => true⟩ msgC3).1 =
      (handleMessage stC3 ⟨true, fun _ => true, fun _ => true⟩ msgC3).1 :=
  (notificationsPrecedePersist stC3 true (fun _ => false)
    (fun _ => true) msgC3).2.1

/-- C5: when the ledger write fails, the restaurants collection keeps its
old value, no send reaches any channel, and the only record of the
failure is the catch-all error log — no error reply exists; and any send
in any trace implies the persist succeeded and a persist effect is in the
trace. -/
theorem persistFailureDropsBroadcast (st : SyncState) (rest : Restaurant)
    (f : String → Bool) (op : Nat → Bool) (msg : Msg)
    (hr : st.restaurants.find? (fun r => r.rid == msg.restaurantId)
      = some rest) :
    (handleMessage st ⟨false, f, op⟩ msg).1.restaurants = st.restaurants ∧
    (∀ e ∈ (handleMessage st ⟨false, f, op⟩ msg).2, e.isSend = false) ∧
    Effect.logError "failed to process incoming message" ∈
      (handleMessage st ⟨false, f, op⟩ msg).2 ∧
    (∀ b : Bool, ∀ e ∈ (handleMessage st ⟨b, f, op⟩ msg).2,
      e.isSend = true → b = true ∧
        ∃ p ∈ (handleMessage st ⟨b, f, op⟩ msg).2, p.isPersist = true) := by
  rw [handleMessage_persistFail st f op msg rest hr]
  refine ⟨rfl, ?_, ?_, ?_⟩
  · intro e he
    rcases List.mem_append.mp he with he | he
    · exact (runNotifications_no_ps f _ _ e he).2
    · simp only [List.mem_singleton] at he
      subst he
      rfl
  · exact List.mem_append.mpr (Or.inr (by simp))
  · intro b e he hsend
    cases b with
    | false =>
      exfalso
      rw [handleMessage_persistFail st f op msg rest hr] at he
      rcases List.mem_append.mp he with he | he
      · rw [(runNotifications_no_ps f _ _ e he).2] at hsend
        exact Bool.false_ne_true hsend
      · simp only [List.mem_singleton] at he
        subst he
        exact Bool.false_ne_true hsend
    | true =>
      refine ⟨rfl, Effect.persist msg.restaurantId
        (mergedOrders rest.activeOrders msg.orders), ?_, rfl⟩
      rw [handleMessage_persistOk st f op msg rest hr]
      exact List.mem_append.mpr
        (Or.inl (List.mem_append.mpr (Or.inr (by simp))))

/-- Witness for C5: a failing persist leaves the concrete restaurant
collection untouched. -/
theorem persistFailureDropsBroadcast_witness :
    (handleMessage stC3 ⟨false, fun _ => true, fun _ => true⟩ msgC3).1.restaurants
      = stC3.restaurants :=
  (persistFailureDropsBroadcast stC3 restC (fun _ => true) (fun _ => true)
    msgC3 (by decide)).1

/-- `broadcastToRestaurant` from `wsStore.ts` sends exactly one copy of
the payload to each currently-open channel of the restaurant (zero
registered channels included: the empty fan-out). -/
theorem broadcastToRestaurant_sends (reg : Registry) (op : Nat → Bool)
    (rid : String) (orders : List ActiveOrder) :
    broadcastToRestaurant reg op rid orders =
      ((getClients reg rid).filter op).map
        fun ch => Effect.send ch rid orders := by
  unfold broadcastToRestaurant getClients
  cases hfind : reg.find? fun p => p.1 == rid with
  | none => rfl
  | some p =>
    dsimp only
    simp only [Option.map_some', Option.getD_some]
    by_cases hemp : p.2.isEmpty = true
    · rw [if_pos hemp]
      have hn : p.2 = [] := by
        cases p2 : p.2 with
        | nil => rfl
        | cons a l =>
          rw [p2] at hemp
          simp at hemp
      rw [hn]
      rfl
    · rw [if_neg hemp]

/-- C6: on a successful update the handler sends the one merged snapshot
payload exactly to the currently-open channels registered under the
message's restaurant id (an empty registration set means zero sends, no
error), every send carries that identical payload, and the store's
`broadcastToRestaurant` performs the same fan-out. -/
theorem broadcastFanout (st : SyncState) (rest : Restaurant)
    (f : String → Bool) (op : Nat → Bool) (msg : Msg)
    (hr : st.restaurants.find? (fun r => r.rid == msg.restaurantId)
      = some rest) :
    (∀ ch, Effect.send ch msg.restaurantId
        (mergedOrders rest.activeOrders msg.orders) ∈
        (handleMessage st ⟨true, f, op⟩ msg).2 ↔
      ch ∈ getClients st.registry msg.restaurantId ∧ op ch = true) ∧
    (∀ ch rid os,
      Effect.send ch rid os ∈ (handleMessage st ⟨true, f, op⟩ msg).2 →
      rid = msg.restaurantId ∧
        os = mergedOrders rest.activeOrders msg.orders) ∧
    (getClients st.registry msg.restaurantId = [] →
      ∀ e ∈ (handleMessage st ⟨true, f, op⟩ msg).2, e.isSend = false) ∧
    (∀ orders : List ActiveOrder,
      broadcastToRestaurant st.registry op msg.restaurantId orders =
        ((getClients st.registry msg.restaurantId).filter op).map
          fun ch => Effect.send ch msg.restaurantId orders) := by
  rw [handleMessage_persistOk st f op msg rest hr]
  refine ⟨?_, ?_, ?_, fun orders => broadcastToRestaurant_sends _ _ _ _⟩
  · intro ch
    constructor
    · intro hmem
      rcases List.mem_append.mp hmem with hmem | hmem
      · rcases List.mem_append.mp hmem with hmem | hmem
        · have hps := runNotifications_no_ps f _ _ _ hmem
          simp [Effect.isSend] at hps
        · simp at hmem
      · rcases List.mem_map.mp hmem with ⟨c, hcmem, hc⟩
        injection hc with h1 h2 h3
        subst h1
        exact ⟨(List.mem_filter.mp hcmem).1, (List.mem_filter.mp hcmem).2⟩
    · intro hch
      refine List.mem_append.mpr (Or.inr ?_)
      exact List.mem_map.mpr ⟨ch, List.mem_filter.mpr hch, rfl⟩
  · intro ch rid os hmem
    rcases List.mem_append.mp hmem with hmem | hmem
    · rcases List.mem_append.mp hmem with hmem | hmem
      · have hps := runNotifications_no_ps f _ _ _ hmem
        simp [Effect.isSend] at hps
      · simp at hmem
    · rcases List.mem_map.mp hmem with ⟨c, _, hc⟩
      injection hc with h1 h2 h3
      exact ⟨h2.symm, h3.symm⟩
  · intro hempty e he
    rw [hempty] at he
    rcases List.mem_append.mp he with he | he
    · rcases List.mem_append.mp he with he | he
      · exact (runNotifications_no_ps f _ _ e he).2
      · simp only [List.mem_singleton] at he
        subst he
        rfl
    · simp at he

/-- Witness for C6: channel `1`, open and registered for `"r2"`, receives
the merged snapshot. -/
theorem broadcastFanout_witness :
    Effect.send 1 "r2" (mergedOrders restB.activeOrders msgCross.orders) ∈
      (handleMessage stPair ⟨true, fun _ => true, fun _ => true⟩
        msgCross).2 :=
  ((broadcastFanout stPair restB (fun _ => true) (fun _ => true) msgCross
    (by decide)).1 1).mpr ⟨by decide, rfl⟩

/-- C10: per changed order, the notification step first performs the
positional write of the order's new status into the matching `pastOrders`
receipt of the customer's record (when one matches), attempts the email
only when that write matched and the (re-read) customer has a non-empty
email address — with the write effect strictly before the email effect —
and an order without a `customerId` leaves the user store untouched and
emits no effect at all. -/
theorem notifyOrderFrame (users : List User) (f : String → Bool)
    (o : ActiveOrder) :
    (o.customerId = none → notifyOrder users f o = (users, [])) ∧
    (∀ cid, o.customerId = some cid →
      (users.any (userMatches cid o.id) = true →
        (notifyOrder users f o).1 = writeStatusToUsers users cid o) ∧
      (users.any (userMatches cid o.id) = false →
        notifyOrder users f o = (users, [Effect.logWarn "no match"])) ∧
      (∀ addr oid,
        Effect.emailAttempt addr oid ∈ (notifyOrder users f o).2 →
        users.any (userMatches cid o.id) = true ∧ oid = o.id ∧
        ∃ u, (writeStatusToUsers users cid o).find? (fun v => v.uid == cid)
            = some u ∧ u.email = addr ∧ addr ≠ "" ∧
        ∃ tail, (notifyOrder users f o).2 =
          Effect.userWrite cid o.id o.status ::
            Effect.emailAttempt addr oid :: tail)) := by
  constructor
  · intro h
    exact notifyOrder_customerId_none users f o h
  · intro cid hcid
    rw [notifyOrder_customerId_some users f o cid hcid]
    unfold notifyOrderSome
    by_cases hm : (users.any (userMatches cid o.id)) = true
    · rw [if_pos hm]
      refine ⟨?_, ?_, ?_⟩
      · intro _
        cases hfind : (writeStatusToUsers users cid o).find?
            fun u => u.uid == cid with
        | none => rfl
        | some u =>
          dsimp only
          by_cases he : (u.email == "") = true
          · rw [if_pos he]
          · rw [if_neg he]
      · intro hm2
        rw [hm] at hm2
        exact absurd hm2 (by decide)
      · intro addr oid hmem
        cases hfind : (writeStatusToUsers users cid o).find?
            fun u => u.uid == cid with
        | none =>
          rw [hfind] at hmem
          simp at hmem
        | some u =>
          rw [hfind] at hmem
          dsimp only at hmem
          by_cases he : (u.email == "") = true
          · rw [if_pos he] at hmem
            simp at hmem
          · rw [if_neg he] at hmem
            refine ⟨hm, ?_⟩
            have hmem2 : Effect.emailAttempt addr oid ∈
                (Effect.userWrite cid o.id o.status ::
                  Effect.emailAttempt u.email o.id ::
                  (if f u.email = true then []
                   else [Effect.logError "email failed"])) := hmem
            rcases List.mem_cons.mp hmem2 with heq | hmem3
            · exact absurd heq (by simp)
            rcases List.mem_cons.mp hmem3 with heq | hmem4
            · injection heq with ha ho
              subst ha
              subst ho
              refine ⟨rfl, ?_⟩
              refine ⟨u, rfl, rfl, ?_, ?_⟩
              · intro habs
                rw [habs] at he
                simp at he
              · refine ⟨(if f u.email = true then []
                  else [Effect.logError "email failed"]), ?_⟩
                dsimp only
                rw [if_neg he]
                rfl
            · exfalso
              by_cases hfe : (f u.email) = true
              · rw [if_pos hfe] at hmem4
                simp at hmem4
              · rw [if_neg hfe] at hmem4
                simp at hmem4
    · rw [if_neg hm]
      refine ⟨?_, fun _ => rfl, ?_⟩
      · intro hm2
        rw [hm2] at hm
        exact absurd rfl hm
      · intro addr oid hmem
        simp at hmem

/-- Witness for C10: the step on the changed `o1u` (customer `"u1"`)
rewrites the user store by the positional receipt-status write. -/
theorem notifyOrderFrame_witness :
    (notifyOrder [userC] (fun _ => true) o1u).1 =
      writeStatusToUsers [userC] "u1" o1u :=
  ((notifyOrderFrame [userC] (fun _ => true) o1u).2 "u1" rfl).1 (by decide)
